import Mathlib

/-!
Verification development for the torch-fem solid-mechanics core
(`src/torchfem/solid.py` and `src/torchfem/materials.py`).

All numeric fields of the embedding use `ℚ` (exact rational arithmetic) in
place of the floating-point tensors of the source; tensors indexed by
elements, nodes and components become functions over `Fin` types, and the
exceptions raised by the Python code become `Except String` results.

External collaborators of the core (the element shape-function library
`torchfem.elements` and the sparse linear solver `torchfem.sparse`, which are
not part of the two core source files) are modelled from the spec, as are the
`Material.vectorize` and `Material.step` operations that `solid.py` invokes
but whose implementation is missing from the `materials.py` snapshot.
-/

/-- Decidable equality for `Except` results, used to evaluate the embedding
on concrete inputs. -/
instance {ε α : Type} [DecidableEq ε] [DecidableEq α] : DecidableEq (Except ε α) := fun a b =>
  match a, b with
  | .error e, .error f =>
      if h : e = f then isTrue (by rw [h]) else
        isFalse (by intro hc; cases hc; exact h rfl)
  | .error _, .ok _ => isFalse (by intro hc; cases hc)
  | .ok _, .error _ => isFalse (by intro hc; cases hc)
  | .ok x, .ok y =>
      if h : x = y then isTrue (by rw [h]) else
        isFalse (by intro hc; cases hc; exact h rfl)

/-- Determinant of a 3×3 matrix by the explicit cofactor formula.  This embeds
`torch.linalg.det` as used by `Solid.J` on per-element 3×3 Jacobians. -/
def det3 (M : Matrix (Fin 3) (Fin 3) ℚ) : ℚ :=
  M 0 0 * (M 1 1 * M 2 2 - M 1 2 * M 2 1)
    - M 0 1 * (M 1 0 * M 2 2 - M 1 2 * M 2 0)
    + M 0 2 * (M 1 0 * M 2 1 - M 1 1 * M 2 0)

/-- Inverse of a 3×3 matrix by the explicit adjugate formula.  This embeds
`torch.linalg.inv` as used by `Solid.integrate_step`; it is only ever applied
after the positive-determinant check. -/
def inv3 (M : Matrix (Fin 3) (Fin 3) ℚ) : Matrix (Fin 3) (Fin 3) ℚ :=
  (det3 M)⁻¹ •
    !![M 1 1 * M 2 2 - M 1 2 * M 2 1, M 0 2 * M 2 1 - M 0 1 * M 2 2,
        M 0 1 * M 1 2 - M 0 2 * M 1 1;
      M 1 2 * M 2 0 - M 1 0 * M 2 2, M 0 0 * M 2 2 - M 0 2 * M 2 0,
        M 0 2 * M 1 0 - M 0 0 * M 1 2;
      M 1 0 * M 2 1 - M 1 1 * M 2 0, M 0 1 * M 2 0 - M 0 0 * M 2 1,
        M 0 0 * M 1 1 - M 0 1 * M 1 0]

/-- Modelled from the spec: the material constitutive interface used by the
solid engine.  `materials.py` in this snapshot does not define the `step`
operation although `Solid.integrate_step` invokes `self.material.step`; per
the spec a material "exposes a `step(Δstrain, priorStrain, priorStress) →
(newStrain, newStress, tangent)` operation". -/
structure Material where
  step : (Fin 6 → ℚ) → (Fin 6 → ℚ) → (Fin 6 → ℚ) →
    (Fin 6 → ℚ) × (Fin 6 → ℚ) × Matrix (Fin 6) (Fin 6) ℚ

/-- Modelled from the spec: `vectorize` broadcasts "a single-law instance
... across N element slots", and "the `step` operation must operate
identically whether broadcast or per-element".  With a single shared law the
broadcast is the identity on the law itself. -/
def Material.vectorize (m : Material) (_nElem : ℕ) : Material := m

/-- Modelled from the spec: the linear-elastic `step`, "degenerating to
`tangent = C`, `newStress = C·newStrain` for linear elasticity", with the
updated strain being the prior strain plus the strain increment. -/
def linearStep (C : Matrix (Fin 6) (Fin 6) ℚ) : Material :=
  ⟨fun dde de _ds => (de + dde, C.mulVec (de + dde), C)⟩

/-- Isotropic material (class `Isotropic`, materials.py lines 4-57). -/
structure Isotropic where
  E : ℚ
  nu : ℚ

/-- Lamé parameter (materials.py line 19). -/
def Isotropic.lbd (m : Isotropic) : ℚ :=
  (m.E * m.nu) / ((1 + m.nu) * (1 - 2 * m.nu))

/-- Shear modulus (materials.py line 23). -/
def Isotropic.G (m : Isotropic) : ℚ :=
  m.E / (2 * (1 + m.nu))

/-- Bulk modulus (materials.py line 27). -/
def Isotropic.K (m : Isotropic) : ℚ :=
  m.E / (3 * (1 - 2 * m.nu))

/-- 3D Voigt stiffness matrix (materials.py lines 44-53). -/
def Isotropic.C (m : Isotropic) : Matrix (Fin 6) (Fin 6) ℚ :=
  !![m.lbd + 2 * m.G, m.lbd, m.lbd, 0, 0, 0;
     m.lbd, m.lbd + 2 * m.G, m.lbd, 0, 0, 0;
     m.lbd, m.lbd, m.lbd + 2 * m.G, 0, 0, 0;
     0, 0, 0, m.G, 0, 0;
     0, 0, 0, 0, m.G, 0;
     0, 0, 0, 0, 0, m.G]

/-- Shear stiffness matrix for shells (materials.py line 57). -/
def Isotropic.Cs (m : Isotropic) : Matrix (Fin 2) (Fin 2) ℚ :=
  !![m.G, 0; 0, m.G]

/-- The isotropic law as a `Material` (step modelled from the spec). -/
def Isotropic.toMaterial (m : Isotropic) : Material := linearStep m.C

/-- Orthotropic material constants (class `Orthotropic`, materials.py
lines 104-116). -/
structure Orthotropic where
  E_1 : ℚ
  E_2 : ℚ
  E_3 : ℚ
  nu_12 : ℚ
  nu_13 : ℚ
  nu_23 : ℚ
  G_12 : ℚ
  G_13 : ℚ
  G_23 : ℚ

/-- Reciprocal Poisson ratio nu_21 (materials.py line 109). -/
def Orthotropic.nu_21 (m : Orthotropic) : ℚ := m.E_2 / m.E_1 * m.nu_12

/-- Reciprocal Poisson ratio nu_31 (materials.py line 111). -/
def Orthotropic.nu_31 (m : Orthotropic) : ℚ := m.E_3 / m.E_1 * m.nu_13

/-- Reciprocal Poisson ratio nu_32 (materials.py line 113). -/
def Orthotropic.nu_32 (m : Orthotropic) : ℚ := m.E_3 / m.E_2 * m.nu_23

/-- Normalization factor F (materials.py lines 119-125). -/
def Orthotropic.F (m : Orthotropic) : ℚ :=
  1 / (1 - m.nu_12 * m.nu_21 - m.nu_13 * m.nu_31 - m.nu_23 * m.nu_32
        - 2 * m.nu_21 * m.nu_32 * m.nu_13)

/-- Tensor entry `_C[0,0,0,0]` (materials.py line 126). -/
def Orthotropic.C0000 (m : Orthotropic) : ℚ := m.E_1 * (1 - m.nu_23 * m.nu_32) * m.F

/-- Tensor entry `_C[1,1,1,1]` (materials.py line 127). -/
def Orthotropic.C1111 (m : Orthotropic) : ℚ := m.E_2 * (1 - m.nu_13 * m.nu_31) * m.F

/-- Tensor entry `_C[2,2,2,2]` (materials.py line 128). -/
def Orthotropic.C2222 (m : Orthotropic) : ℚ := m.E_3 * (1 - m.nu_12 * m.nu_21) * m.F

/-- Tensor entry `_C[0,0,1,1]` = `_C[1,1,0,0]` (materials.py lines 129-130). -/
def Orthotropic.C0011 (m : Orthotropic) : ℚ :=
  m.E_1 * (m.nu_21 + m.nu_31 * m.nu_23) * m.F

/-- Tensor entry `_C[0,0,2,2]` = `_C[2,2,0,0]` (materials.py lines 131-132). -/
def Orthotropic.C0022 (m : Orthotropic) : ℚ :=
  m.E_1 * (m.nu_31 + m.nu_21 * m.nu_32) * m.F

/-- Tensor entry `_C[1,1,2,2]` = `_C[2,2,1,1]` (materials.py lines 133-134). -/
def Orthotropic.C1122 (m : Orthotropic) : ℚ :=
  m.E_2 * (m.nu_32 + m.nu_12 * m.nu_31) * m.F

/-- Voigt stiffness matrix built by `Orthotropic.C` (materials.py
lines 162-170): the shear diagonal is populated, in row order 3, 4, 5, with
`_C[0,1,0,1] = G_12`, `_C[0,2,0,2] = G_13`, `_C[1,2,1,2] = G_23`. -/
def Orthotropic.C (m : Orthotropic) : Matrix (Fin 6) (Fin 6) ℚ :=
  !![m.C0000, m.C0011, m.C0022, 0, 0, 0;
     m.C0011, m.C1111, m.C1122, 0, 0, 0;
     m.C0022, m.C1122, m.C2222, 0, 0, 0;
     0, 0, 0, m.G_12, 0, 0;
     0, 0, 0, 0, m.G_13, 0;
     0, 0, 0, 0, 0, m.G_23]

/-- The orthotropic law as a `Material` (step modelled from the spec). -/
def Orthotropic.toMaterial (m : Orthotropic) : Material := linearStep m.C

/-- Modelled from the spec: the element-type collaborator interface, "external"
per §1/§6, with "capability set \x7bnode_count, gradient_operator(natural_coord),
integration_points(), integration_weights()\x7d".  The node count is the type
index `arity`. -/
structure EType (arity : ℕ) where
  iweights : List ℚ
  ipoints : List (Fin 3 → ℚ)
  B : (Fin 3 → ℚ) → Matrix (Fin 3) (Fin arity) ℚ

/-- Modelled from the spec: the linear tetrahedron (4 nodes).  The standard
reference element has shape functions 1−x−y−z, x, y, z, hence the constant
gradient operator below, with the single-point quadrature rule of weight 1/6
(the reference tetrahedron volume). -/
def Tetra1 : EType 4 where
  iweights := [1 / 6]
  ipoints := [![1 / 4, 1 / 4, 1 / 4]]
  B _ := !![-1, 1, 0, 0; -1, 0, 1, 0; -1, 0, 0, 1]

/-- Modelled from the spec: the linear hexahedron (8 nodes).  Only the node
count is specified at the interface boundary; no claim evaluates its
quadrature data, which is left empty. -/
def Hexa1 : EType 8 where
  iweights := []
  ipoints := []
  B _ := 0

/-- Modelled from the spec: the quadratic tetrahedron (10 nodes).  Only the
node count is specified at the interface boundary; no claim evaluates its
quadrature data, which is left empty. -/
def Tetra2 : EType 10 where
  iweights := []
  ipoints := []
  B _ := 0

/-- Modelled from the spec: the quadratic hexahedron (20 nodes).  Only the
node count is specified at the interface boundary; no claim evaluates its
quadrature data, which is left empty. -/
def Hexa2 : EType 20 where
  iweights := []
  ipoints := []
  B _ := 0

/-- The element-type selection of `Solid.__init__` (solid.py lines 16-23): an
if/elif chain on the element arity with NO else branch, so an unsupported
arity leaves the element type unassigned (`none`). -/
def selectEtype (a : ℕ) : Option (EType a) :=
  if h : a = 4 then some (h ▸ Tetra1)
  else if h : a = 8 then some (h ▸ Hexa1)
  else if h : a = 10 then some (h ▸ Tetra2)
  else if h : a = 20 then some (h ▸ Hexa2)
  else none

/-- The `Solid` data (class `Solid`, solid.py lines 7-33).  Nodes are rows of
3 coordinates; elements are tuples of `arity` node indices; `forces`,
`displacements` and `constraints` are per-(node, component) arrays.  The DOF
index map `self.indices` (lines 28-33) is the map `(e, a, c) ↦
(elements e a, c)` spelled out where it is used. -/
structure Solid where
  nNodes : ℕ
  nElem : ℕ
  arity : ℕ
  nodes : Fin nNodes → Fin 3 → ℚ
  elements : Fin nElem → Fin arity → Fin nNodes
  forces : Fin nNodes → Fin 3 → ℚ
  displacements : Fin nNodes → Fin 3 → ℚ
  constraints : Fin nNodes → Fin 3 → Bool
  material : Material
  etype : Option (EType arity)

/-- Global DOF index: a (node, component) pair; the source flattens this to
`3 * node + component` (solid.py line 30). -/
abbrev DofI (s : Solid) := Fin s.nNodes × Fin 3

/-- A global DOF vector (a raveled `(nNodes, 3)` tensor). -/
abbrev DofV (s : Solid) := DofI s → ℚ

/-- A per-element 6-component Voigt history field (strain or stress). -/
abbrev HistV (s : Solid) := Fin s.nElem → Fin 6 → ℚ

/-- `n_dofs = torch.numel(nodes)` (solid.py line 10). -/
def Solid.n_dofs (s : Solid) : ℕ := 3 * s.nNodes

/-- `Solid.__init__` (solid.py lines 8-33): forces, displacements and
constraints start at zero/false, the material is vectorized over the
elements, and the element type is selected from the arity. -/
def mkSolid {nN nE a : ℕ} (nodes : Fin nN → Fin 3 → ℚ)
    (elements : Fin nE → Fin a → Fin nN) (material : Material) : Solid :=
  ⟨nN, nE, a, nodes, elements, fun _ _ => 0, fun _ _ => 0, fun _ _ => false,
    material.vectorize nE, selectEtype a⟩

/-- The constraint flag of a global DOF. -/
def conD (s : Solid) (d : DofI s) : Bool := s.constraints d.1 d.2

/-- Local node coordinates `nodes = self.nodes[self.elements, :]`
(solid.py line 57) of one element. -/
def nodesMat (s : Solid) (e : Fin s.nElem) : Matrix (Fin s.arity) (Fin 3) ℚ :=
  fun a j => s.nodes (s.elements e a) j

/-- Error message of `Solid.J` (solid.py line 40). -/
def negJac : String := "Negative Jacobian. Check element numbering."

/-- Error raised by Python when an unsupported arity left `self.etype`
unassigned and it is first dereferenced (in `integrate_step`). -/
def attrErr : String := "AttributeError: Solid object has no attribute etype"

/-- Error raised by Python when `max_iter = 0` leaves `epsilon_new` unbound
at the commit step of `solve` (line 143). -/
def nameErr : String := "NameError: name epsilon_new is not defined"

/-- The sparsity table of the strain-displacement operator `Solid.D`
(solid.py lines 43-53): Voigt row `r`, displacement component `c` ↦ the
gradient row of `B` appearing there (`none` for a zero slot).  Rows are the
engineering strains (xx, yy, zz, yz, xz, xy). -/
def dTab : Fin 6 → Fin 3 → Option (Fin 3) :=
  ![![some 0, none, none],
    ![none, some 1, none],
    ![none, none, some 2],
    ![none, some 2, some 1],
    ![some 2, none, some 0],
    ![some 1, some 0, none]]

/-- Element gradient operator `Solid.D` (solid.py lines 43-53), mapping the
element-local DOF `(a, c)` (node slot, displacement component) to the 6
engineering-strain rows. -/
def Solid.D (s : Solid) (B : Matrix (Fin 3) (Fin s.arity) ℚ) :
    Matrix (Fin 6) (Fin s.arity × Fin 3) ℚ :=
  fun r ac => ((dTab r ac.2).map fun g => B g ac.1).getD 0

/-- `Solid.J` (solid.py lines 35-41): per-element Jacobians `B(q) @ nodes`
and their determinants, raising if any determinant is non-positive. -/
def Solid.J (s : Solid) (et : EType s.arity) (q : Fin 3 → ℚ) :
    Except String ((Fin s.nElem → Matrix (Fin 3) (Fin 3) ℚ) × (Fin s.nElem → ℚ)) :=
  let Jm : Fin s.nElem → Matrix (Fin 3) (Fin 3) ℚ := fun e => et.B q * nodesMat s e
  let dJ : Fin s.nElem → ℚ := fun e => det3 (Jm e)
  if ∃ e, dJ e ≤ 0 then .error negJac else .ok (Jm, dJ)

/-- Accumulators of the quadrature loop of `Solid.integrate_step`
(solid.py lines 59-62): element stiffness `k`, element internal force `f`,
element strain and stress. -/
@[ext]
structure IntAcc (s : Solid) where
  k : Fin s.nElem → Matrix (Fin s.arity × Fin 3) (Fin s.arity × Fin 3) ℚ
  f : Fin s.nElem → (Fin s.arity × Fin 3) → ℚ
  eps : HistV s
  sigma : HistV s
deriving DecidableEq

/-- The zero accumulator (`torch.zeros` initialisations, solid.py
lines 59-62). -/
def zeroAcc (s : Solid) : IntAcc s :=
  ⟨fun _ => 0, fun _ _ => 0, fun _ _ => 0, fun _ _ => 0⟩

/-- One quadrature point of the loop of `Solid.integrate_step`
(solid.py lines 63-79): Jacobian and determinant check, physical gradient
`B = J⁻¹ B(q)`, strain-displacement operator `D`, strain increment
`Δε = D·Δu`, material step, and the `(w · detJ)`-weighted accumulations of
strain, stress, internal force `Dᵀ·σ` and stiffness `(C·D)ᵀ·D`. -/
def qpointStep (s : Solid) (et : EType s.arity) (de ds : HistV s)
    (duE : Fin s.nElem → (Fin s.arity × Fin 3) → ℚ) (wq : ℚ × (Fin 3 → ℚ))
    (acc : IntAcc s) : Except String (IntAcc s) :=
  match s.J et wq.2 with
  | .error e => .error e
  | .ok (Jm, dJ) =>
      let Dm : Fin s.nElem → Matrix (Fin 6) (Fin s.arity × Fin 3) ℚ :=
        fun e => s.D (inv3 (Jm e) * et.B wq.2)
      let resp := fun e => s.material.step ((Dm e).mulVec (duE e)) (de e) (ds e)
      .ok ⟨fun e => acc.k e + (wq.1 * dJ e) • (Matrix.transpose ((resp e).2.2 * Dm e) * Dm e),
           fun e => acc.f e + (wq.1 * dJ e) • Matrix.vecMul (resp e).2.1 (Dm e),
           fun e => acc.eps e + (wq.1 * dJ e) • (resp e).1,
           fun e => acc.sigma e + (wq.1 * dJ e) • (resp e).2.1⟩

/-- The quadrature loop `for w, q in zip(self.etype.iweights(),
self.etype.ipoints())` of `Solid.integrate_step` (solid.py line 63). -/
def integrateQ (s : Solid) (et : EType s.arity) (de ds : HistV s)
    (duE : Fin s.nElem → (Fin s.arity × Fin 3) → ℚ) :
    List (ℚ × (Fin 3 → ℚ)) → IntAcc s → Except String (IntAcc s)
  | [], acc => .ok acc
  | wq :: rest, acc =>
      match qpointStep s et de ds duE wq acc with
      | .error e => .error e
      | .ok acc2 => integrateQ s et de ds duE rest acc2

/-- `Solid.integrate_step` (solid.py lines 55-80).  The element-local
displacement gather `du[self.elements, :].reshape(...)` (line 58) is the map
`duE`.  Dereferencing the element type fails when `__init__` left it unset. -/
def Solid.integrate_step (s : Solid) (de ds : HistV s) (du : DofV s) :
    Except String (IntAcc s) :=
  match s.etype with
  | none => .error attrErr
  | some et =>
      integrateQ s et de ds (fun e ac => du (s.elements e ac.1, ac.2))
        (et.iweights.zip et.ipoints) (zeroAcc s)

/-- List product helper, enumerating pairs in row-major order (the raveling
order of the source tensors). -/
def listProd {α β : Type} (xs : List α) (ys : List β) : List (α × β) :=
  xs.flatMap fun a => ys.map fun b => (a, b)

/-- All element-local DOFs `(node slot, component)` in ravel order. -/
def localDofs (s : Solid) : List (Fin s.arity × Fin 3) :=
  listProd (List.finRange s.arity) (List.finRange 3)

/-- All global DOFs in ravel order (node index outer, component inner),
the order of `constraints.ravel()`. -/
def allDofs (s : Solid) : List (DofI s) :=
  listProd (List.finRange s.nNodes) (List.finRange 3)

/-- The element-local to global DOF map (solid.py lines 28-33):
local DOF `(a, c)` of element `e` has global index `3 * elements[e][a] + c`,
here the pair `(elements e a, c)`. -/
def dofOf (s : Solid) (e : Fin s.nElem) (ac : Fin s.arity × Fin 3) : DofI s :=
  (s.elements e ac.1, ac.2)

/-- The raveled COO triple list of the element stiffness scatter
(solid.py lines 86-87): value `k[e][a][b]` is paired with row index
`indices[0] = dof(e, b)` and column index `indices[1] = dof(e, a)` — the
source's `idx1`/`idx2` expansion scatters each element matrix transposed
(irrelevant for the symmetric stiffness, embedded faithfully here). -/
def elemTriples (s : Solid)
    (k : Fin s.nElem → Matrix (Fin s.arity × Fin 3) (Fin s.arity × Fin 3) ℚ) :
    List ((DofI s × DofI s) × ℚ) :=
  (List.finRange s.nElem).flatMap fun e =>
    (localDofs s).flatMap fun a =>
      (localDofs s).map fun b => ((dofOf s e b, dofOf s e a), k e a b)

/-- The constrained-DOF index list `con = torch.nonzero(constraints.ravel())`
(solid.py line 108), in ravel order. -/
def conList (s : Solid) : List (DofI s) := (allDofs s).filter (conD s)

/-- Semantics of `torch.sparse_coo_tensor(indices, values).coalesce()`
(solid.py line 95): the matrix entry at an index pair is the sum of all
scattered values carrying that pair (duplicates are summed). -/
def cooSum (s : Solid) (l : List ((DofI s × DofI s) × ℚ)) (p : DofI s × DofI s) : ℚ :=
  ((l.filter fun t => t.1 = p).map fun t => t.2).sum

/-- `Solid.assemble_stiffness` (solid.py lines 82-95): drop every scattered
triple whose row or column is a constrained DOF, append a unit diagonal entry
for each constrained DOF, and coalesce into an `n_dofs × n_dofs` matrix. -/
def Solid.assemble_stiffness (s : Solid)
    (k : Fin s.nElem → Matrix (Fin s.arity × Fin 3) (Fin s.arity × Fin 3) ℚ) :
    Matrix (DofI s) (DofI s) ℚ :=
  fun r c =>
    cooSum s
      (((elemTriples s k).filter fun t => !(conD s t.1.1 || conD s t.1.2)) ++
        (conList s).map fun d => ((d, d), (1 : ℚ)))
      (r, c)

/-- `Solid.assemble_force` (solid.py lines 97-102): scatter-add the element
internal forces into a global vector through the same DOF index map. -/
def Solid.assemble_force (s : Solid)
    (f : Fin s.nElem → (Fin s.arity × Fin 3) → ℚ) : DofV s :=
  fun d => ∑ e : Fin s.nElem, ∑ a : Fin s.arity × Fin 3,
    if dofOf s e a = d then f e a else 0

/-- Squared Euclidean norm of a DOF vector.  The source prints
`torch.linalg.norm(residual)` (solid.py line 137); its square is the
rational-valued determinate of that observability signal logged here. -/
def normSq (s : Solid) (r : DofV s) : ℚ := ∑ d : DofI s, r d * r d

/-- The outputs of one Newton-Raphson iteration (solid.py lines 122-140):
the updated running displacement increment, the last integration outputs,
the assembled internal force, the logged residual norm (squared) and the
post-override displacement passed to the integration. -/
@[ext]
structure IterOut (s : Solid) where
  du : DofV s
  epsN : HistV s
  sigN : HistV s
  Fint : DofV s
  resSq : ℚ
  duUsed : DofV s
deriving DecidableEq

/-- One iteration of the inner Newton-Raphson loop (solid.py lines 122-140):
apply the incremental target displacement at constrained DOFs, integrate,
assemble stiffness and internal force, form the residual with constrained
entries zeroed, and subtract the linear-solve correction.  `ls` is the
external sparse-solve collaborator (modelled from the spec:
`solve(K, b) → x`). -/
def newtonIter (s : Solid)
    (ls : Matrix (DofI s) (DofI s) ℚ → DofV s → DofV s)
    (eps sig : HistV s) (Fext DU : DofV s) (du : DofV s) :
    Except String (IterOut s) :=
  let du1 : DofV s := fun d => if conD s d then DU d else du d
  match s.integrate_step eps sig du1 with
  | .error e => .error e
  | .ok out =>
      let K := s.assemble_stiffness out.k
      let Fint := s.assemble_force out.f
      let r : DofV s := fun d => if conD s d then 0 else Fint d - Fext d
      .ok ⟨fun d => du1 d - ls K r d, out.eps, out.sigma, Fint, normSq s r, du1⟩

/-- The outputs of one increment's inner loop `for j in range(max_iter)`
(solid.py lines 122-140), with the per-iteration observability trace:
logged residuals, the displacement and history passed to each integration
pass, and each iteration's integration outputs. -/
@[ext]
structure InnerOut (s : Solid) where
  du : DofV s
  epsN : HistV s
  sigN : HistV s
  Fint : DofV s
  resLog : List ℚ
  duUsed : List (DofV s)
  histUsed : List (HistV s × HistV s)
  histOuts : List (HistV s × HistV s)
deriving DecidableEq

/-- The inner Newton-Raphson loop (solid.py lines 122-140).  The history
`(eps, sig)` is a fixed parameter of the whole loop — the Python loop never
reassigns `epsilon`/`sigma` inside it.  With `max_iter = 0` the commit step
would read the unbound `epsilon_new` (Python `NameError`). -/
def innerLoop (s : Solid)
    (ls : Matrix (DofI s) (DofI s) ℚ → DofV s → DofV s)
    (eps sig : HistV s) (Fext DU : DofV s) :
    ℕ → DofV s → Except String (InnerOut s)
  | 0, _ => .error nameErr
  | 1, du =>
      match newtonIter s ls eps sig Fext DU du with
      | .error e => .error e
      | .ok it =>
          .ok ⟨it.du, it.epsN, it.sigN, it.Fint, [it.resSq], [it.duUsed],
            [(eps, sig)], [(it.epsN, it.sigN)]⟩
  | j + 2, du =>
      match newtonIter s ls eps sig Fext DU du with
      | .error e => .error e
      | .ok it =>
          match innerLoop s ls eps sig Fext DU (j + 1) it.du with
          | .error e => .error e
          | .ok rest =>
              .ok ⟨rest.du, rest.epsN, rest.sigN, rest.Fint,
                it.resSq :: rest.resLog, it.duUsed :: rest.duUsed,
                (eps, sig) :: rest.histUsed, (it.epsN, it.sigN) :: rest.histOuts⟩

/-- The observability record of one committed load increment. -/
@[ext]
structure IncrTrace (s : Solid) where
  histIn : HistV s × HistV s
  commit : HistV s × HistV s
  duIn : DofV s
  duOut : DofV s
  DUvec : DofV s
  resLog : List ℚ
  duUsed : List (DofV s)
  histUsed : List (HistV s × HistV s)
  histOuts : List (HistV s × HistV s)
deriving DecidableEq

/-- The running state of `Solid.solve` (solid.py lines 110-114 and 142-146):
committed strain/stress history, committed force, total displacement, the
running displacement increment, and the trace of committed increments. -/
@[ext]
structure SolveState (s : Solid) where
  epsilon : HistV s
  sigma : HistV s
  f : Fin s.nNodes → Fin 3 → ℚ
  u : Fin s.nNodes → Fin 3 → ℚ
  du : DofV s
  incs : List (IncrTrace s)
deriving DecidableEq

/-- The zero initial state of `Solid.solve` (solid.py lines 110-114). -/
def initState (s : Solid) : SolveState s :=
  ⟨fun _ _ => 0, fun _ _ => 0, fun _ _ => 0, fun _ _ => 0, fun _ => 0, []⟩

/-- The commit step of one increment (solid.py lines 142-146): the last
integration outputs become the persisted history, the assembled internal
force is reshaped into the force field, and the displacement increment is
accumulated into the total displacement. -/
def commitSt (s : Solid) (st : SolveState s) (DU : DofV s) (io : InnerOut s) :
    SolveState s :=
  ⟨io.epsN, io.sigN, fun n c => io.Fint (n, c), fun n c => st.u n c + io.du (n, c),
    io.du,
    st.incs ++ [⟨(st.epsilon, st.sigma), (io.epsN, io.sigN), st.du, io.du, DU,
      io.resLog, io.duUsed, io.histUsed, io.histOuts⟩]⟩

/-- The outer loop of `Solid.solve` over consecutive load-factor breakpoints
(solid.py lines 116-146): incremental force and target displacement scaled by
the breakpoint delta, the inner Newton loop, then the commit. -/
def outerGo (s : Solid)
    (ls : Matrix (DofI s) (DofI s) ℚ → DofV s → DofV s) (m : ℕ) :
    ℚ → List ℚ → SolveState s → Except String (SolveState s)
  | _, [], st => .ok st
  | prev, inc :: rest, st =>
      match innerLoop s ls st.epsilon st.sigma
          (fun d => (inc - prev) * s.forces d.1 d.2)
          (fun d => (inc - prev) * s.displacements d.1 d.2) m st.du with
      | .error e => .error e
      | .ok io =>
          outerGo s ls m inc rest
            (commitSt s st (fun d => (inc - prev) * s.displacements d.1 d.2) io)

/-- `Solid.solve` (solid.py lines 104-148).  `increments` is the breakpoint
list; the loop runs over consecutive pairs.  `tol` is accepted and never
read.  `ls` is the external sparse-solve collaborator (modelled from the
spec).  Returns the final state carrying `(u, f, sigma, epsilon)`. -/
def Solid.solve (s : Solid)
    (ls : Matrix (DofI s) (DofI s) ℚ → DofV s → DofV s)
    (increments : List ℚ) (max_iter : ℕ) (tol : ℚ) :
    Except String (SolveState s) :=
  match increments with
  | [] => .ok (initState s)
  | first :: rest => outerGo s ls max_iter first rest (initState s)

/-- A trivial linear-solve stand-in for runs that abort before any solve. -/
def idLs (s : Solid) : Matrix (DofI s) (DofI s) ℚ → DofV s → DofV s :=
  fun _ b => b

/-- Unit reference tetrahedron node coordinates. -/
def tNodes : Fin 4 → Fin 3 → ℚ :=
  ![![0, 0, 0], ![1, 0, 0], ![0, 1, 0], ![0, 0, 1]]

/-- The single 4-node element. -/
def tElems : Fin 1 → Fin 4 → Fin 4 := fun _ => ![0, 1, 2, 3]

/-- Cantilever constraints: the face z = 0 (nodes 0, 1, 2) fully fixed. -/
def tCon : Fin 4 → Fin 3 → Bool :=
  ![![true, true, true], ![true, true, true], ![true, true, true],
    ![false, false, false]]

/-- Unit point force in z at the free node 3. -/
def tFor : Fin 4 → Fin 3 → ℚ :=
  ![![0, 0, 0], ![0, 0, 0], ![0, 0, 0], ![0, 0, 1]]

/-- The single-tetrahedron cantilever of spec §8: one linear tetrahedron, one
face fully constrained, unit point force at the opposite node, linear-elastic
isotropic material (E = 1, ν = 0, so C = diag(1,1,1,1/2,1/2,1/2)). -/
def tetraCant : Solid :=
  { mkSolid tNodes tElems (Isotropic.toMaterial ⟨1, 0⟩) with
      constraints := tCon, forces := tFor }

/-- Diagonal of the stiffness matrix that `assemble_stiffness` produces for
`tetraCant`: identity rows for the 9 constrained DOFs and the free-node block
diag(1/12, 1/12, 1/6). -/
def dkT : DofI tetraCant → ℚ :=
  fun d => if d.1 = (3 : Fin 4) then (if d.2 = (2 : Fin 3) then 1 / 6 else 1 / 12)
    else 1

/-- The assembled global stiffness matrix of `tetraCant` (diagonal). -/
def KmatT : Matrix (DofI tetraCant) (DofI tetraCant) ℚ := Matrix.diagonal dkT

/-- Entrywise inverse of the diagonal of `KmatT`. -/
def dinvT : DofI tetraCant → ℚ :=
  fun d => if d.1 = (3 : Fin 4) then (if d.2 = (2 : Fin 3) then 6 else 12) else 1

/-- The exact inverse of `KmatT`. -/
def KinvT : Matrix (DofI tetraCant) (DofI tetraCant) ℚ := Matrix.diagonal dinvT

/-- Modelled from the spec: the external sparse-solve collaborator
`solve(K, b) → x` instantiated for the `tetraCant` runs.  The stiffness
assembled there is the fixed matrix `KmatT` at every iteration (the model is
linear and the geometry fixed), and this solver returns its exact solution
`KmatT⁻¹ · b`; see `KmatT_mul_KinvT` and `tetraLs_exact` below. -/
def tetraLs : Matrix (DofI tetraCant) (DofI tetraCant) ℚ →
    DofV tetraCant → DofV tetraCant :=
  fun _ b => KinvT.mulVec b

/-- The zero DOF vector of the cantilever model. -/
def zeroDofT : DofV tetraCant := fun _ => 0

/-- The zero history field of the cantilever model. -/
def zeroHistT : HistV tetraCant := fun _ _ => 0

/-- The zero history pair. -/
def z2T : HistV tetraCant × HistV tetraCant := (zeroHistT, zeroHistT)

/-- The converged displacement increment: 6 in z at node 3. -/
def duHat : DofV tetraCant := fun d => if d = ((3 : Fin 4), (2 : Fin 3)) then 6 else 0

/-- The incremental external force of the cantilever run (breakpoint delta
1 − 0 times the prescribed forces). -/
def FextT : DofV tetraCant := fun d => tetraCant.forces d.1 d.2

/-- The incremental target displacement of the cantilever run (pointwise
zero: the cantilever is force-driven). -/
def DUT : DofV tetraCant := fun d => tetraCant.displacements d.1 d.2

/-- The converged element strain/stress in Voigt components. -/
def vHat : Fin 6 → ℚ := ![0, 0, 1, 0, 0, 0]

/-- The converged history field. -/
def cvHat : HistV tetraCant := fun _ => vHat

/-- The converged history pair. -/
def c2T : HistV tetraCant × HistV tetraCant := (cvHat, cvHat)

/-- The converged assembled internal force as a DOF vector. -/
def FintHat : DofV tetraCant :=
  fun d => if d = ((0 : Fin 4), (2 : Fin 3)) then -1
    else if d = ((3 : Fin 4), (2 : Fin 3)) then 1 else 0

/-- The converged internal force field (reshaped). -/
def fHat : Fin 4 → Fin 3 → ℚ :=
  ![![0, 0, -1], ![0, 0, 0], ![0, 0, 0], ![0, 0, 1]]

/-- The converged displacement field (reshaped). -/
def uHat : Fin 4 → Fin 3 → ℚ :=
  ![![0, 0, 0], ![0, 0, 0], ![0, 0, 0], ![0, 0, 6]]

/-- Outputs of the first Newton iteration of the cantilever run: the
integration at the zero displacement yields zero strain, stress and internal
force, residual norm² 1, and the corrected displacement `duHat`. -/
def it1c : IterOut tetraCant := ⟨duHat, zeroHistT, zeroHistT, zeroDofT, 1, zeroDofT⟩

/-- Outputs of every later Newton iteration of the cantilever run: the
integration at `duHat` yields the converged fields and a zero residual, and
leaves the displacement unchanged. -/
def it2c : IterOut tetraCant := ⟨duHat, cvHat, cvHat, FintHat, 0, duHat⟩

/-- Increment trace of the cantilever run with `max_iter = 1`. -/
def tr1 : IncrTrace tetraCant :=
  ⟨z2T, z2T, zeroDofT, duHat, DUT, [1], [zeroDofT], [z2T], [z2T]⟩

/-- Final state of the cantilever run with `max_iter = 1`: the displacement
is converged but the committed strain, stress and force are the zero fields
of the first (and only) integration pass. -/
def o1c : SolveState tetraCant :=
  ⟨zeroHistT, zeroHistT, fun _ _ => 0, uHat, duHat, [tr1]⟩

/-- Increment trace of the cantilever run with `max_iter = 2`. -/
def tr2 : IncrTrace tetraCant :=
  ⟨z2T, c2T, zeroDofT, duHat, DUT, [1, 0], [zeroDofT, duHat],
    [z2T, z2T], [z2T, c2T]⟩

/-- Final state of the cantilever run with `max_iter = 2`. -/
def o2c : SolveState tetraCant := ⟨cvHat, cvHat, fHat, uHat, duHat, [tr2]⟩

/-- Increment trace of the cantilever run with `max_iter = 5`. -/
def tr5 : IncrTrace tetraCant :=
  ⟨z2T, c2T, zeroDofT, duHat, DUT, [1, 0, 0, 0, 0],
    [zeroDofT, duHat, duHat, duHat, duHat], [z2T, z2T, z2T, z2T, z2T],
    [z2T, c2T, c2T, c2T, c2T]⟩

/-- Final state of the cantilever run with `max_iter = 5`. -/
def o5c : SolveState tetraCant := ⟨cvHat, cvHat, fHat, uHat, duHat, [tr5]⟩

/-- Inner-loop outputs of the cantilever increment with `max_iter = 1`. -/
def io1c : InnerOut tetraCant :=
  ⟨duHat, zeroHistT, zeroHistT, zeroDofT, [1], [zeroDofT], [z2T], [z2T]⟩

/-- Inner-loop outputs of the cantilever increment with `max_iter = 2`. -/
def io2c : InnerOut tetraCant :=
  ⟨duHat, cvHat, cvHat, FintHat, [1, 0], [zeroDofT, duHat], [z2T, z2T],
    [z2T, c2T]⟩

/-- Inner-loop outputs of the cantilever increment with `max_iter = 5`. -/
def io5c : InnerOut tetraCant :=
  ⟨duHat, cvHat, cvHat, FintHat, [1, 0, 0, 0, 0],
    [zeroDofT, duHat, duHat, duHat, duHat], [z2T, z2T, z2T, z2T, z2T],
    [z2T, c2T, c2T, c2T, c2T]⟩

/-- The cantilever solve of spec §8 with load path `[0, 1]` and a given
iteration budget (`tol` is never read by `solve`). -/
def solveTetra (m : ℕ) : Except String (SolveState tetraCant) :=
  tetraCant.solve tetraLs [0, 1] m 0

/-- Unit tetrahedron with nodes 1 and 2 swapped: inverted node ordering with
Jacobian determinant −1. -/
def bNodes : Fin 4 → Fin 3 → ℚ :=
  ![![0, 0, 0], ![0, 1, 0], ![1, 0, 0], ![0, 0, 1]]

/-- A degenerate (inverted) one-element solid. -/
def tetraBad : Solid := mkSolid bNodes tElems (Isotropic.toMaterial ⟨1, 0⟩)

/-- Nodes for the unsupported-arity example. -/
def nodes6 : Fin 4 → Fin 3 → ℚ := fun _ _ => 0

/-- A 6-node element tuple: arity 6 matches no supported family. -/
def elems6 : Fin 1 → Fin 6 → Fin 4 := fun _ _ => 0

/-- A solid constructed from arity-6 elements (no supported family). -/
def solid6 : Solid := mkSolid nodes6 elems6 (Isotropic.toMaterial ⟨1, 0⟩)

/-- An orthotropic instance with three distinct shear moduli
(G_12 = 5, G_13 = 7, G_23 = 11) and vanishing Poisson ratios. -/
def orthoEx : Orthotropic := ⟨1, 1, 1, 0, 0, 0, 5, 7, 11⟩

/-- The chained shape of the increment traces produced by `outerGo` starting
from history `h0` and running displacement increment `du0`: each increment's
integration passes all receive the previous committed history, its logged
residual list has length `m`, its commit is the last integration output, and
the first displacement passed to integration overrides exactly the
constrained entries of the incoming `du0`. -/
def TraceChain (s : Solid) (m : ℕ) :
    (HistV s × HistV s) → DofV s → List (IncrTrace s) → Prop
  | _, _, [] => True
  | h0, du0, t :: ts =>
      t.histIn = h0 ∧ t.duIn = du0 ∧ t.resLog.length = m ∧
      t.histUsed = List.replicate m h0 ∧
      t.histOuts.getLast? = some t.commit ∧
      t.duUsed.head? = some (fun d => if conD s d then t.DUvec d else du0 d) ∧
      TraceChain s m t.commit t.duOut ts

/-- A successful Newton iteration passed the constrained-override of the
incoming displacement to the integration pass. -/
lemma newtonIter_ok_duUsed {s : Solid} {ls} {eps sig : HistV s} {Fe DU du : DofV s}
    {it : IterOut s} (h : newtonIter s ls eps sig Fe DU du = .ok it) :
    it.duUsed = fun d => if conD s d then DU d else du d := by
  cases hint : s.integrate_step eps sig (fun d => if conD s d then DU d else du d) with
  | error e => simp only [newtonIter, hint] at h; exact Except.noConfusion h
  | ok out =>
      simp only [newtonIter, hint] at h
      cases h
      rfl

/-- Per-iteration facts of a successful inner Newton loop: the residual log
has one entry per iteration, every integration pass received the fixed
history `(eps, sig)`, the last per-iteration integration output is the
returned one, and the first displacement passed to integration is the
constrained-override of the incoming `du`. -/
lemma innerLoop_spec {s : Solid} {ls} {eps sig : HistV s} {Fe DU : DofV s} :
    ∀ (j : ℕ) (du : DofV s) (io : InnerOut s),
      innerLoop s ls eps sig Fe DU (j + 1) du = .ok io →
      io.resLog.length = j + 1 ∧
      io.histUsed = List.replicate (j + 1) (eps, sig) ∧
      io.histOuts.getLast? = some (io.epsN, io.sigN) ∧
      io.duUsed.head? = some (fun d => if conD s d then DU d else du d) := by
  intro j
  induction j with
  | zero =>
      intro du io h
      cases hn : newtonIter s ls eps sig Fe DU du with
      | error e => simp only [innerLoop, hn] at h; exact Except.noConfusion h
      | ok it =>
          simp only [innerLoop, hn] at h
          cases h
          refine ⟨rfl, rfl, rfl, ?_⟩
          simp [newtonIter_ok_duUsed hn]
  | succ n ih =>
      intro du io h
      cases hn : newtonIter s ls eps sig Fe DU du with
      | error e => simp only [innerLoop, hn] at h; exact Except.noConfusion h
      | ok it =>
          cases hr : innerLoop s ls eps sig Fe DU (n + 1) it.du with
          | error e => simp only [innerLoop, hn, hr] at h; exact Except.noConfusion h
          | ok rest =>
              simp only [innerLoop, hn, hr] at h
              cases h
              obtain ⟨h1, h2, h3, h4⟩ := ih it.du rest hr
              refine ⟨by simp [h1], by simp [h2, List.replicate_succ], ?_, ?_⟩
              · have hne : rest.histOuts ≠ [] := by
                  intro he
                  rw [he] at h3
                  cases h3
                simp [List.getLast?_cons, hne, h3]
              · simp [newtonIter_ok_duUsed hn]

/-- A successful run of the outer increment loop appends one increment trace
per processed breakpoint, chained from the incoming state. -/
lemma outerGo_spec {s : Solid} {ls} {m : ℕ} :
    ∀ (rest : List ℚ) (prev : ℚ) (st st' : SolveState s),
      outerGo s ls m prev rest st = .ok st' →
      ∃ l, st'.incs = st.incs ++ l ∧ l.length = rest.length ∧
        TraceChain s m (st.epsilon, st.sigma) st.du l := by
  intro rest
  induction rest with
  | nil =>
      intro prev st st' h
      simp only [outerGo] at h
      cases h
      exact ⟨[], by simp, rfl, trivial⟩
  | cons inc rest ih =>
      intro prev st st' h
      cases m with
      | zero =>
          cases hio : innerLoop s ls st.epsilon st.sigma
              (fun d => (inc - prev) * s.forces d.1 d.2)
              (fun d => (inc - prev) * s.displacements d.1 d.2) 0 st.du with
          | error e => simp only [outerGo, hio] at h; exact Except.noConfusion h
          | ok io => simp only [innerLoop] at hio; exact Except.noConfusion hio
      | succ k =>
          cases hio : innerLoop s ls st.epsilon st.sigma
              (fun d => (inc - prev) * s.forces d.1 d.2)
              (fun d => (inc - prev) * s.displacements d.1 d.2) (k + 1) st.du with
          | error e => simp only [outerGo, hio] at h; exact Except.noConfusion h
          | ok io =>
              simp only [outerGo, hio] at h
              obtain ⟨l', hinc, hlen, hchain⟩ := ih inc _ st' h
              obtain ⟨h1, h2, h3, h4⟩ := innerLoop_spec k st.du io hio
              refine ⟨⟨(st.epsilon, st.sigma), (io.epsN, io.sigN), st.du, io.du,
                  fun d => (inc - prev) * s.displacements d.1 d.2,
                  io.resLog, io.duUsed, io.histUsed, io.histOuts⟩ :: l', ?_, ?_, ?_⟩
              · rw [hinc]
                simp [commitSt]
              · simp [hlen]
              · exact ⟨rfl, rfl, h1, h2, h3, h4, hchain⟩

/-- Every trace in a chain logs exactly `m` residuals. -/
lemma traceChain_resLog {s : Solid} {m : ℕ} :
    ∀ (l : List (IncrTrace s)) (h0 : HistV s × HistV s) (du0 : DofV s),
      TraceChain s m h0 du0 l → ∀ t ∈ l, t.resLog.length = m := by
  intro l
  induction l with
  | nil => intro h0 du0 _ t ht; cases ht
  | cons a l ih =>
      intro h0 du0 hc t ht
      obtain ⟨_, _, h3, _, _, _, htail⟩ := hc
      rcases List.mem_cons.mp ht with rfl | hmem
      · exact h3
      · exact ih a.commit a.duOut htail t hmem

/-- Every trace in a chain passed its incoming history to every integration
pass and committed the last integration output. -/
lemma traceChain_hist {s : Solid} {m : ℕ} :
    ∀ (l : List (IncrTrace s)) (h0 : HistV s × HistV s) (du0 : DofV s),
      TraceChain s m h0 du0 l →
      ∀ t ∈ l, t.histUsed = List.replicate m t.histIn ∧
        t.histOuts.getLast? = some t.commit := by
  intro l
  induction l with
  | nil => intro h0 du0 _ t ht; cases ht
  | cons a l ih =>
      intro h0 du0 hc t ht
      obtain ⟨h1, _, _, h4, h5, _, htail⟩ := hc
      rcases List.mem_cons.mp ht with rfl | hmem
      · exact ⟨by rw [h1, h4], h5⟩
      · exact ih a.commit a.duOut htail t hmem

/-- The incoming histories of a chain are the committed histories shifted by
one, starting from `h0`. -/
lemma traceChain_histIn {s : Solid} {m : ℕ} :
    ∀ (l : List (IncrTrace s)) (h0 : HistV s × HistV s) (du0 : DofV s),
      TraceChain s m h0 du0 l →
      l.map (fun t => t.histIn) = (h0 :: l.map fun t => t.commit).dropLast := by
  intro l
  induction l with
  | nil => intro h0 du0 _; simp
  | cons a l ih =>
      intro h0 du0 hc
      obtain ⟨h1, _, _, _, _, _, htail⟩ := hc
      have := ih a.commit a.duOut htail
      simp only [List.map_cons]
      rw [h1, this]
      rcases l with _ | ⟨b, l⟩
      · simp
      · simp [List.dropLast]

/-- The incoming displacement increments of a chain are the outgoing ones
shifted by one, starting from `du0`. -/
lemma traceChain_duIn {s : Solid} {m : ℕ} :
    ∀ (l : List (IncrTrace s)) (h0 : HistV s × HistV s) (du0 : DofV s),
      TraceChain s m h0 du0 l →
      l.map (fun t => t.duIn) = (du0 :: l.map fun t => t.duOut).dropLast := by
  intro l
  induction l with
  | nil => intro h0 du0 _; simp
  | cons a l ih =>
      intro h0 du0 hc
      obtain ⟨_, h2, _, _, _, _, htail⟩ := hc
      have := ih a.commit a.duOut htail
      simp only [List.map_cons]
      rw [h2, this]
      rcases l with _ | ⟨b, l⟩
      · simp
      · simp [List.dropLast]

/-- Every trace in a chain overrides exactly the constrained entries of its
own incoming displacement with the incremental target displacement. -/
lemma traceChain_duUsed {s : Solid} {m : ℕ} :
    ∀ (l : List (IncrTrace s)) (h0 : HistV s × HistV s) (du0 : DofV s),
      TraceChain s m h0 du0 l →
      ∀ t ∈ l, t.duUsed.head? =
        some (fun d => if conD s d then t.DUvec d else t.duIn d) := by
  intro l
  induction l with
  | nil => intro h0 du0 _ t ht; cases ht
  | cons a l ih =>
      intro h0 du0 hc t ht
      obtain ⟨_, h2, _, _, _, h6, htail⟩ := hc
      rcases List.mem_cons.mp ht with rfl | hmem
      · rw [h6, h2]
      · exact ih a.commit a.duOut htail t hmem

/-- A successful `solve` decomposes into the trace chain started at the zero
initial state, one trace per consecutive breakpoint pair. -/
lemma solve_spec {s : Solid} {ls} {incs : List ℚ} {m : ℕ} {tol : ℚ}
    {out : SolveState s} (h : s.solve ls incs m tol = .ok out) :
    out.incs.length = incs.length - 1 ∧
      TraceChain s m (fun _ _ => 0, fun _ _ => 0) (fun _ => 0) out.incs := by
  cases incs with
  | nil =>
      simp only [Solid.solve] at h
      cases h
      exact ⟨rfl, trivial⟩
  | cons first rest =>
      simp only [Solid.solve] at h
      obtain ⟨l, hinc, hlen, hchain⟩ := outerGo_spec rest first (initState s) out h
      simp only [initState, List.nil_append] at hinc hchain
      subst hinc
      exact ⟨by simp [hlen], hchain⟩

/-- Claim C1: for every call to solve, the Newton-Raphson inner loop executes
exactly `max_iter` iterations for every load increment (one logged residual
per iteration), and the `tol` parameter is never used to terminate iteration
early or to flag non-convergence: the result — iteration log included — is
independent of `tol`. -/
theorem claim_C1_fixed_iterations (s : Solid) (ls) (incs : List ℚ) (m : ℕ)
    (tol : ℚ) (out : SolveState s) (h : s.solve ls incs m tol = .ok out) :
    (∀ tol2 : ℚ, s.solve ls incs m tol2 = .ok out) ∧
    out.incs.length = incs.length - 1 ∧
    ∀ t ∈ out.incs, t.resLog.length = m := by
  obtain ⟨hlen, hchain⟩ := solve_spec h
  exact ⟨fun tol2 => h, hlen, traceChain_resLog _ _ _ hchain⟩

/-- Claim C6: during the `max_iter` intra-increment Newton iterations of any
load increment, every integration pass receives the history committed at the
end of the previous increment (initially zero), and the committed history of
each increment is the output of its last integration pass. -/
theorem claim_C6_history_commit (s : Solid) (ls) (incs : List ℚ) (m : ℕ)
    (tol : ℚ) (out : SolveState s) (h : s.solve ls incs m tol = .ok out) :
    out.incs.map (fun t => t.histIn) =
      ((((fun _ _ => 0 : HistV s), (fun _ _ => 0 : HistV s))) ::
        out.incs.map fun t => t.commit).dropLast ∧
    ∀ t ∈ out.incs, t.histUsed = List.replicate m t.histIn ∧
      t.histOuts.getLast? = some t.commit := by
  obtain ⟨_, hchain⟩ := solve_spec h
  exact ⟨traceChain_histIn _ _ _ hchain, traceChain_hist _ _ _ hchain⟩

/-- Claim C10: across consecutive increments of one solve call, the running
displacement-increment vector `du` is never reset — each increment starts
from the final `du` of the previous increment (initially zero), and the
displacement passed to its first integration pass overrides exactly the
constrained entries with the incremental target displacement while every
free entry keeps its incoming value. -/
theorem claim_C10_du_persists (s : Solid) (ls) (incs : List ℚ) (m : ℕ)
    (tol : ℚ) (out : SolveState s) (h : s.solve ls incs m tol = .ok out) :
    out.incs.map (fun t => t.duIn) =
      ((fun _ => 0 : DofV s) :: out.incs.map fun t => t.duOut).dropLast ∧
    ∀ t ∈ out.incs, t.duUsed.head? =
      some (fun d => if conD s d then t.DUvec d else t.duIn d) := by
  obtain ⟨_, hchain⟩ := solve_spec h
  exact ⟨traceChain_duIn _ _ _ hchain, traceChain_duUsed _ _ _ hchain⟩

/-- A fallible iteration result is determined by its six projections. -/
lemma exceptIter_eq {s : Solid} {x : Except String (IterOut s)} {it : IterOut s}
    (h1 : x.map IterOut.du = .ok it.du) (h2 : x.map IterOut.epsN = .ok it.epsN)
    (h3 : x.map IterOut.sigN = .ok it.sigN) (h4 : x.map IterOut.Fint = .ok it.Fint)
    (h5 : x.map IterOut.resSq = .ok it.resSq)
    (h6 : x.map IterOut.duUsed = .ok it.duUsed) :
    x = .ok it := by
  cases x with
  | error e => exact Except.noConfusion (show Except.error e = Except.ok it.du from h1)
  | ok y =>
      simp only [Except.map, Except.ok.injEq] at h1 h2 h3 h4 h5 h6
      exact congrArg Except.ok (IterOut.ext h1 h2 h3 h4 h5 h6)

set_option maxRecDepth 100000 in
/-- First Newton iteration of the cantilever increment, evaluated on the
embedding: starting from the zero displacement, the integration outputs are
zero, the residual norm² is 1, and the corrected displacement is `duHat`. -/
lemma newtonT1 : newtonIter tetraCant tetraLs (fun _ _ => 0) (fun _ _ => 0)
    FextT DUT (fun _ => 0) = .ok it1c := by
  apply exceptIter_eq <;> with_unfolding_all decide

set_option maxRecDepth 100000 in
/-- Any later Newton iteration of the cantilever increment, evaluated on the
embedding: starting from `duHat`, the integration outputs are the converged
fields, the residual vanishes and the displacement is unchanged. -/
lemma newtonT2 : newtonIter tetraCant tetraLs (fun _ _ => 0) (fun _ _ => 0)
    FextT DUT duHat = .ok it2c := by
  apply exceptIter_eq <;> with_unfolding_all decide

/-- If one Newton iteration is a fixed point of the displacement, every
longer inner loop repeats it verbatim. -/
lemma innerLoop_const {s : Solid} {ls} {eps sig : HistV s} {Fe DU : DofV s}
    {du : DofV s} {it : IterOut s}
    (h : newtonIter s ls eps sig Fe DU du = .ok it) (hfix : it.du = du) :
    ∀ j, innerLoop s ls eps sig Fe DU (j + 1) du =
      .ok ⟨du, it.epsN, it.sigN, it.Fint, List.replicate (j + 1) it.resSq,
        List.replicate (j + 1) it.duUsed, List.replicate (j + 1) (eps, sig),
        List.replicate (j + 1) (it.epsN, it.sigN)⟩ := by
  intro j
  induction j with
  | zero =>
      simp only [innerLoop, h, hfix, List.replicate]
  | succ n ih =>
      simp only [innerLoop, h, hfix, ih, List.replicate]

/-- Cantilever inner loop with a budget of 1 iteration. -/
lemma innerT1 : innerLoop tetraCant tetraLs (fun _ _ => 0) (fun _ _ => 0)
    FextT DUT 1 (fun _ => 0) = .ok io1c := by
  simp only [innerLoop, newtonT1]
  rfl

/-- One successful Newton iteration followed by a successful shorter loop
makes a successful longer loop, consing the iteration's log entries. -/
lemma innerLoop_cons {s : Solid} {ls} {eps sig : HistV s} {Fe DU : DofV s}
    {du : DofV s} {it : IterOut s} {io : InnerOut s} {j : ℕ}
    (h1 : newtonIter s ls eps sig Fe DU du = .ok it)
    (h2 : innerLoop s ls eps sig Fe DU (j + 1) it.du = .ok io) :
    innerLoop s ls eps sig Fe DU (j + 2) du =
      .ok ⟨io.du, io.epsN, io.sigN, io.Fint, it.resSq :: io.resLog,
        it.duUsed :: io.duUsed, (eps, sig) :: io.histUsed,
        (it.epsN, it.sigN) :: io.histOuts⟩ := by
  simp only [innerLoop, h1, h2]

/-- Cantilever inner loop with a budget of 2 iterations. -/
lemma innerT2 : innerLoop tetraCant tetraLs (fun _ _ => 0) (fun _ _ => 0)
    FextT DUT 2 (fun _ => 0) = .ok io2c := by
  have h := innerLoop_cons newtonT1 (innerLoop_const newtonT2 rfl 0)
  exact h

/-- Cantilever inner loop with a budget of 5 iterations. -/
lemma innerT5 : innerLoop tetraCant tetraLs (fun _ _ => 0) (fun _ _ => 0)
    FextT DUT 5 (fun _ => 0) = .ok io5c := by
  have h := innerLoop_cons newtonT1 (innerLoop_const newtonT2 rfl 3)
  exact h

/-- Normal form of the incremental force of the cantilever run. -/
lemma hFextT : (fun d : DofI tetraCant =>
    ((1 : ℚ) - 0) * tetraCant.forces d.1 d.2) = FextT := by
  funext d
  rw [sub_zero, one_mul]
  rfl

/-- Normal form of the incremental target displacement of the cantilever
run. -/
lemma hDUT : (fun d : DofI tetraCant =>
    ((1 : ℚ) - 0) * tetraCant.displacements d.1 d.2) = DUT := by
  funext d
  rw [sub_zero, one_mul]
  rfl

/-- A solve over a single breakpoint pair `[a, b]` is one inner loop from the
zero initial state followed by one commit. -/
lemma solve_two {s : Solid} {ls} {a b : ℚ} {m : ℕ} {tol : ℚ}
    {Fev DUv : DofV s} {io : InnerOut s}
    (hF : (fun d : DofI s => (b - a) * s.forces d.1 d.2) = Fev)
    (hD : (fun d : DofI s => (b - a) * s.displacements d.1 d.2) = DUv)
    (h : innerLoop s ls (fun _ _ => 0) (fun _ _ => 0) Fev DUv m (fun _ => 0) = .ok io) :
    s.solve ls [a, b] m tol = .ok (commitSt s (initState s) DUv io) := by
  simp only [Solid.solve, outerGo, initState, hF, hD, h]

/-- The cantilever solve with `max_iter = 1`, evaluated on the embedding. -/
lemma solveT1 : solveTetra 1 = .ok o1c :=
  (solve_two hFextT hDUT innerT1).trans (congrArg Except.ok
    (SolveState.ext rfl rfl rfl (by with_unfolding_all decide) rfl rfl))

/-- The cantilever solve with `max_iter = 2`, evaluated on the embedding. -/
lemma solveT2 : solveTetra 2 = .ok o2c :=
  (solve_two hFextT hDUT innerT2).trans (congrArg Except.ok
    (SolveState.ext rfl rfl (by with_unfolding_all decide)
      (by with_unfolding_all decide) rfl rfl))

/-- The cantilever solve with `max_iter = 5`, evaluated on the embedding. -/
lemma solveT5 : solveTetra 5 = .ok o5c :=
  (solve_two hFextT hDUT innerT5).trans (congrArg Except.ok
    (SolveState.ext rfl rfl (by with_unfolding_all decide)
      (by with_unfolding_all decide) rfl rfl))

/-- Claim C7 counterexample: for the single linear-tetrahedron cantilever
(`tetraCant`, one face fixed, unit point force at the opposite node,
linear-elastic material, increments `[0, 1]`), the quadruple of returned
fields (displacement, force, stress, strain) differs between `max_iter = 1`
and `max_iter = 5`: with one iteration the returned stress, strain and force
are the zero fields of the pre-correction integration pass, not the
converged values. -/
theorem claim_C7_counterexample :
    ¬ ((solveTetra 1).map (fun o => o.u) = (solveTetra 5).map (fun o => o.u) ∧
       (solveTetra 1).map (fun o => o.f) = (solveTetra 5).map (fun o => o.f) ∧
       (solveTetra 1).map (fun o => o.sigma) =
         (solveTetra 5).map (fun o => o.sigma) ∧
       (solveTetra 1).map (fun o => o.epsilon) =
         (solveTetra 5).map fun o => o.epsilon) := by
  rw [solveT1, solveT5]
  with_unfolding_all decide

/-- Claim C7 amended: for the single linear-tetrahedron cantilever the
returned displacement field is identical for `max_iter = 1` and
`max_iter = 5`; the returned force, stress and strain agree between
`max_iter = 2` and `max_iter = 5`, but with `max_iter = 1` they are
the zero fields, because the commit uses the integration outputs of the
final iteration, evaluated at the displacement before its correction. -/
theorem claim_C7_amended :
    (solveTetra 1).map (fun o => o.u) = (solveTetra 5).map (fun o => o.u) ∧
    (solveTetra 2).map (fun o => o.f) = (solveTetra 5).map (fun o => o.f) ∧
    (solveTetra 2).map (fun o => o.sigma) =
      (solveTetra 5).map (fun o => o.sigma) ∧
    (solveTetra 2).map (fun o => o.epsilon) =
      (solveTetra 5).map (fun o => o.epsilon) ∧
    (solveTetra 1).map (fun o => o.sigma) = .ok (fun _ _ => 0) ∧
    (solveTetra 1).map (fun o => o.epsilon) = .ok (fun _ _ => 0) ∧
    (solveTetra 1).map (fun o => o.f) = .ok (fun _ _ => 0) := by
  rw [solveT1, solveT2, solveT5]
  exact ⟨rfl, rfl, rfl, rfl, rfl, rfl, rfl⟩

/-- Claim C1 witness: the cantilever run with `max_iter = 1` instantiates the
fixed-iteration-count theorem; the `tol` argument can be replaced by any
value, and the single increment logged exactly one residual. -/
theorem claim_C1_witness :
    Solid.solve tetraCant tetraLs [0, 1] 1 (99 : ℚ) = .ok o1c ∧
    o1c.incs.length = 1 :=
  ⟨(claim_C1_fixed_iterations tetraCant tetraLs [0, 1] 1 0 o1c solveT1).1 99,
    (claim_C1_fixed_iterations tetraCant tetraLs [0, 1] 1 0 o1c solveT1).2.1⟩

/-- Claim C6 witness: the cantilever run with `max_iter = 1` instantiates the
history-commit theorem at a concrete successful solve. -/
theorem claim_C6_witness :
    o1c.incs.map (fun t => t.histIn) =
      ((((fun _ _ => 0 : HistV tetraCant), (fun _ _ => 0 : HistV tetraCant))) ::
        o1c.incs.map fun t => t.commit).dropLast :=
  (claim_C6_history_commit tetraCant tetraLs [0, 1] 1 0 o1c solveT1).1

/-- Claim C10 witness: the cantilever run with `max_iter = 1` instantiates
the displacement-persistence theorem at a concrete successful solve. -/
theorem claim_C10_witness :
    o1c.incs.map (fun t => t.duIn) =
      ((fun _ => 0 : DofV tetraCant) :: o1c.incs.map fun t => t.duOut).dropLast :=
  (claim_C10_du_persists tetraCant tetraLs [0, 1] 1 0 o1c solveT1).1

/-- A quadrature step can only fail with the negative-Jacobian message. -/
lemma qpointStep_err {s : Solid} {et : EType s.arity} {de ds : HistV s}
    {duE} {wq : ℚ × (Fin 3 → ℚ)} {acc : IntAcc s} {err : String}
    (h : qpointStep s et de ds duE wq acc = .error err) : err = negJac := by
  by_cases hc : ∃ e, det3 (et.B wq.2 * nodesMat s e) ≤ 0
  · simp only [qpointStep, Solid.J, if_pos hc] at h
    cases h
    rfl
  · simp only [qpointStep, Solid.J, if_neg hc] at h
    exact Except.noConfusion h

/-- A quadrature step at an offending quadrature point returns the
negative-Jacobian error. -/
lemma qpointStep_pos {s : Solid} {et : EType s.arity} {de ds : HistV s}
    {duE} {wq : ℚ × (Fin 3 → ℚ)} {acc : IntAcc s}
    (hc : ∃ e, det3 (et.B wq.2 * nodesMat s e) ≤ 0) :
    qpointStep s et de ds duE wq acc = .error negJac := by
  simp only [qpointStep, Solid.J]
  rw [if_pos hc]

/-- If any quadrature point of any element has a non-positive Jacobian
determinant, the quadrature loop aborts with the negative-Jacobian error,
whatever has been accumulated so far. -/
lemma integrateQ_err {s : Solid} {et : EType s.arity} {de ds : HistV s} {duE} :
    ∀ (L : List (ℚ × (Fin 3 → ℚ))) (acc : IntAcc s),
      (∃ wq ∈ L, ∃ e, det3 (et.B wq.2 * nodesMat s e) ≤ 0) →
      integrateQ s et de ds duE L acc = .error negJac := by
  intro L
  induction L with
  | nil =>
      rintro acc ⟨wq, hm, _⟩
      cases hm
  | cons wq0 rest ih =>
      rintro acc ⟨wq, hm, e, hdet⟩
      rcases List.mem_cons.mp hm with rfl | hm2
      · simp only [integrateQ, qpointStep_pos ⟨e, hdet⟩]
      · cases hq : qpointStep s et de ds duE wq0 acc with
        | error err =>
            simp only [integrateQ, hq]
            rw [qpointStep_err hq]
        | ok acc2 =>
            simp only [integrateQ, hq]
            exact ih acc2 ⟨wq, hm2, e, hdet⟩

/-- If the mesh has a degenerate element, every integration pass fails with
the negative-Jacobian error regardless of history and displacement. -/
lemma integrate_step_negJac {s : Solid} {et : EType s.arity}
    (het : s.etype = some et) {w : ℚ} {q : Fin 3 → ℚ}
    (hwq : (w, q) ∈ et.iweights.zip et.ipoints) {e : Fin s.nElem}
    (hdet : det3 (et.B q * nodesMat s e) ≤ 0) :
    ∀ de ds du, s.integrate_step de ds du = .error negJac := by
  intro de ds du
  simp only [Solid.integrate_step, het]
  exact integrateQ_err _ _ ⟨(w, q), hwq, e, hdet⟩

/-- If every integration pass fails with a fixed error, the whole solve over
at least one increment with at least one iteration fails with that error. -/
lemma solve_err {s : Solid} {ls} {err : String}
    (herr : ∀ de ds du, s.integrate_step de ds du = .error err) :
    ∀ (a b : ℚ) (rest : List ℚ) (m : ℕ), 1 ≤ m → ∀ tol : ℚ,
      s.solve ls (a :: b :: rest) m tol = .error err := by
  intro a b rest m hm tol
  have hnewton : ∀ (eps sig : HistV s) (Fe DU du : DofV s),
      newtonIter s ls eps sig Fe DU du = .error err := by
    intro eps sig Fe DU du
    simp only [newtonIter, herr]
  have hinner : ∀ (j : ℕ) (eps sig : HistV s) (Fe DU du : DofV s),
      innerLoop s ls eps sig Fe DU (j + 1) du = .error err := by
    intro j eps sig Fe DU du
    cases j with
    | zero => simp only [innerLoop, hnewton]
    | succ n => simp only [innerLoop, hnewton]
  cases m with
  | zero => cases hm
  | succ n => simp only [Solid.solve, outerGo, hinner]

/-- Claim C2: a non-positive Jacobian determinant at any quadrature point of
any element is fatal: the integration pass itself returns the
negative-Jacobian error for every history and displacement (at every
iteration, before any global assembly of that iteration), and the whole
solve over any non-trivial load path aborts with that error — no retry. -/
theorem claim_C2_negative_jacobian_fatal (s : Solid) (et : EType s.arity)
    (het : s.etype = some et) (w : ℚ) (q : Fin 3 → ℚ)
    (hwq : (w, q) ∈ et.iweights.zip et.ipoints) (e : Fin s.nElem)
    (hdet : det3 (et.B q * nodesMat s e) ≤ 0)
    (ls) (a b : ℚ) (rest : List ℚ) (m : ℕ) (hm : 1 ≤ m) (tol : ℚ) :
    (∀ de ds du, s.integrate_step de ds du = .error negJac) ∧
    s.solve ls (a :: b :: rest) m tol = .error negJac :=
  ⟨integrate_step_negJac het hwq hdet,
    solve_err (integrate_step_negJac het hwq hdet) a b rest m hm tol⟩

/-- Claim C2 witness: the inverted unit tetrahedron (`tetraBad`, nodes 1 and
2 swapped, Jacobian determinant −1) makes the solve abort with the
negative-Jacobian error. -/
theorem claim_C2_witness :
    Solid.solve tetraBad (idLs tetraBad) [0, 1] 1 0 = .error negJac :=
  (claim_C2_negative_jacobian_fatal tetraBad Tetra1 rfl (1 / 6) ![1 / 4, 1 / 4, 1 / 4]
    (by with_unfolding_all decide) ⟨0, by decide⟩ (by with_unfolding_all decide)
    (idLs tetraBad) 0 1 [] 1 (by decide) 0).2

/-- The arity if/elif chain selects no element type for an unsupported
arity. -/
lemma selectEtype_none (a : ℕ) (h4 : a ≠ 4) (h8 : a ≠ 8) (h10 : a ≠ 10)
    (h20 : a ≠ 20) : selectEtype a = none := by
  simp only [selectEtype, dif_neg h4, dif_neg h8, dif_neg h10, dif_neg h20]

/-- With no element type assigned, every integration pass fails with the
attribute error. -/
lemma integrate_step_attrErr {s : Solid} (hnone : s.etype = none) :
    ∀ de ds du, s.integrate_step de ds du = .error attrErr := by
  intro de ds du
  simp only [Solid.integrate_step, hnone]

/-- Claim C3 counterexample: constructing a `Solid` from arity-6 elements
does not fail — `__init__` has no else branch, so it returns a `Solid` whose
element type is simply unassigned; no configuration error is raised at
construction, and a later solve fails with an attribute error instead. -/
theorem claim_C3_counterexample :
    solid6.etype = none ∧
    Solid.solve solid6 (idLs solid6) [0, 1] 3 0 = .error attrErr := by
  constructor
  · rfl
  · exact solve_err (integrate_step_attrErr rfl) 0 1 [] 3 (by decide) 0

/-- Claim C3 amended: constructing a `Solid` whose elements have an arity
other than 4, 8, 10 or 20 does not fail at construction time — the element
type is silently left unassigned — and the failure only surfaces when the
element type is first dereferenced: any solve over a non-trivial load path
fails with an attribute error, not a configuration error. -/
theorem claim_C3_amended (a : ℕ) (h4 : a ≠ 4) (h8 : a ≠ 8) (h10 : a ≠ 10)
    (h20 : a ≠ 20) {nN nE : ℕ} (nodes : Fin nN → Fin 3 → ℚ)
    (elems : Fin nE → Fin a → Fin nN) (mat : Material) (ls) (a0 b0 : ℚ)
    (rest : List ℚ) (m : ℕ) (hm : 1 ≤ m) (tol : ℚ) :
    (mkSolid nodes elems mat).etype = none ∧
    Solid.solve (mkSolid nodes elems mat) ls (a0 :: b0 :: rest) m tol =
      .error attrErr := by
  have hnone : (mkSolid nodes elems mat).etype = none :=
    selectEtype_none a h4 h8 h10 h20
  exact ⟨hnone, solve_err (integrate_step_attrErr hnone) a0 b0 rest m hm tol⟩

/-- Claim C3 witness: the amended statement instantiated at the concrete
arity-6 solid. -/
theorem claim_C3_witness :
    (mkSolid nodes6 elems6 (Isotropic.toMaterial ⟨1, 0⟩)).etype = none ∧
    Solid.solve (mkSolid nodes6 elems6 (Isotropic.toMaterial ⟨1, 0⟩))
      (idLs solid6) [0, 1] 3 0 = .error attrErr :=
  claim_C3_amended 6 (by decide) (by decide) (by decide) (by decide)
    nodes6 elems6 (Isotropic.toMaterial ⟨1, 0⟩) (idLs solid6) 0 1 [] 3
    (by decide) 0

/-- Claim C5: every linear-elastic material variant exposes the step
operation `step(Δstrain, priorStrain, priorStress) → (newStrain, newStress,
tangent)` with `tangent = C` and `newStress = C·newStrain` (and
`newStrain = priorStrain + Δstrain`); this is the operation the integration
pass invokes at each quadrature point (`Solid.integrate_step` calls
`s.material.step` inside `qpointStep`), and vectorizing the material over
the elements leaves it unchanged. -/
theorem claim_C5_material_step (mI : Isotropic) (mO : Orthotropic)
    (dde de ds : Fin 6 → ℚ) (n : ℕ) :
    mI.toMaterial.step dde de ds = (de + dde, mI.C.mulVec (de + dde), mI.C) ∧
    mO.toMaterial.step dde de ds = (de + dde, mO.C.mulVec (de + dde), mO.C) ∧
    (mI.toMaterial.vectorize n).step = mI.toMaterial.step :=
  ⟨rfl, rfl, rfl⟩

/-- Claim C9 (code bug): evaluated at `orthoEx` (G_12 = 5, G_13 = 7,
G_23 = 11), the Voigt matrix of `Orthotropic.C` — whose own docstring labels
rows/columns 3, 4, 5 as the shear order (yz, xz, xy), the order also used by
`Solid.D` — carries `G_12` in the yz slot (3,3) and `G_23` in the xy slot
(5,5), the opposite of the documented assignment; only the xz slot (4,4)
matches `G_13`. -/
theorem claim_C9_voigt_shear_swapped :
    orthoEx.G_12 = 5 ∧ orthoEx.G_13 = 7 ∧ orthoEx.G_23 = 11 ∧
    orthoEx.C 3 3 = 5 ∧ orthoEx.C 4 4 = 7 ∧ orthoEx.C 5 5 = 11 ∧
    orthoEx.C 3 3 ≠ orthoEx.G_23 ∧ orthoEx.C 5 5 ≠ orthoEx.G_12 ∧
    (∀ i j : Fin 6, i.val < 3 → 3 ≤ j.val → orthoEx.C i j = 0 ∧ orthoEx.C j i = 0) := by
  refine ⟨rfl, rfl, rfl, ?_, ?_, ?_, ?_, ?_, ?_⟩ <;> with_unfolding_all decide

set_option maxHeartbeats 1000000 in
/-- Claim C8: for every isotropic material with E > 0 and 0 < ν < 1/2, the
3D stiffness matrix `C()` is symmetric and positive definite; its normal
diagonal terms equal λ + 2G, its normal off-diagonal terms equal λ, its
shear-diagonal terms equal G, its normal-shear coupling entries are all
zero, and λ, G are the documented functions of E and ν. -/
theorem claim_C8_isotropic_spd (m : Isotropic) (hE : 0 < m.E)
    (h0 : 0 < m.nu) (h2 : m.nu < 1 / 2) :
    m.lbd = m.E * m.nu / ((1 + m.nu) * (1 - 2 * m.nu)) ∧
    m.G = m.E / (2 * (1 + m.nu)) ∧
    Matrix.transpose m.C = m.C ∧
    (m.C 0 0 = m.lbd + 2 * m.G ∧ m.C 1 1 = m.lbd + 2 * m.G ∧
      m.C 2 2 = m.lbd + 2 * m.G) ∧
    (m.C 0 1 = m.lbd ∧ m.C 0 2 = m.lbd ∧ m.C 1 0 = m.lbd ∧
      m.C 1 2 = m.lbd ∧ m.C 2 0 = m.lbd ∧ m.C 2 1 = m.lbd) ∧
    (m.C 3 3 = m.G ∧ m.C 4 4 = m.G ∧ m.C 5 5 = m.G) ∧
    (∀ i j : Fin 6, i.val < 3 → 3 ≤ j.val → m.C i j = 0 ∧ m.C j i = 0) ∧
    (∀ x : Fin 6 → ℚ, x ≠ 0 → 0 < Matrix.dotProduct x (m.C.mulVec x)) := by
  have h1nu : 0 < 1 + m.nu := by linarith
  have h12nu : 0 < 1 - 2 * m.nu := by linarith
  have hG : 0 < m.G := div_pos hE (by linarith)
  have hl : 0 < m.lbd := div_pos (mul_pos hE h0) (mul_pos h1nu h12nu)
  refine ⟨rfl, rfl, ?_, ⟨rfl, rfl, rfl⟩, ⟨rfl, rfl, rfl, rfl, rfl, rfl⟩,
    ⟨rfl, rfl, rfl⟩, ?_, ?_⟩
  · ext i j
    fin_cases i <;> fin_cases j <;> rfl
  · intro i j hi hj
    fin_cases i <;> fin_cases j <;> simp_all <;> exact ⟨rfl, rfl⟩
  · intro x hx
    have hquad : Matrix.dotProduct x (m.C.mulVec x) =
        m.lbd * (x 0 + x 1 + x 2) ^ 2 +
          2 * m.G * ((x 0) ^ 2 + (x 1) ^ 2 + (x 2) ^ 2) +
          m.G * ((x 3) ^ 2 + (x 4) ^ 2 + (x 5) ^ 2) := by
      simp only [Matrix.dotProduct, Matrix.mulVec, Fin.sum_univ_six]
      simp only [show m.C 0 0 = m.lbd + 2 * m.G from rfl, show m.C 0 1 = m.lbd from rfl, show m.C 0 2 = m.lbd from rfl, show m.C 0 3 = 0 from rfl, show m.C 0 4 = 0 from rfl, show m.C 0 5 = 0 from rfl, show m.C 1 0 = m.lbd from rfl, show m.C 1 1 = m.lbd + 2 * m.G from rfl, show m.C 1 2 = m.lbd from rfl, show m.C 1 3 = 0 from rfl, show m.C 1 4 = 0 from rfl, show m.C 1 5 = 0 from rfl, show m.C 2 0 = m.lbd from rfl, show m.C 2 1 = m.lbd from rfl, show m.C 2 2 = m.lbd + 2 * m.G from rfl, show m.C 2 3 = 0 from rfl, show m.C 2 4 = 0 from rfl, show m.C 2 5 = 0 from rfl, show m.C 3 0 = 0 from rfl, show m.C 3 1 = 0 from rfl, show m.C 3 2 = 0 from rfl, show m.C 3 3 = m.G from rfl, show m.C 3 4 = 0 from rfl, show m.C 3 5 = 0 from rfl, show m.C 4 0 = 0 from rfl, show m.C 4 1 = 0 from rfl, show m.C 4 2 = 0 from rfl, show m.C 4 3 = 0 from rfl, show m.C 4 4 = m.G from rfl, show m.C 4 5 = 0 from rfl, show m.C 5 0 = 0 from rfl, show m.C 5 1 = 0 from rfl, show m.C 5 2 = 0 from rfl, show m.C 5 3 = 0 from rfl, show m.C 5 4 = 0 from rfl, show m.C 5 5 = m.G from rfl]
      ring
    have hpos : 0 < x 0 ^ 2 + x 1 ^ 2 + x 2 ^ 2 + x 3 ^ 2 + x 4 ^ 2 + x 5 ^ 2 := by
      rcases lt_or_eq_of_le (show (0 : ℚ) ≤ x 0 ^ 2 + x 1 ^ 2 + x 2 ^ 2 +
          x 3 ^ 2 + x 4 ^ 2 + x 5 ^ 2 by positivity) with h | h
      · exact h
      · exfalso
        apply hx
        have hsq0 : x 0 ^ 2 ≤ 0 := by nlinarith [sq_nonneg (x 1), sq_nonneg (x 2), sq_nonneg (x 3), sq_nonneg (x 4), sq_nonneg (x 5)]
        have e0 : x 0 = 0 := sq_eq_zero_iff.mp (le_antisymm hsq0 (sq_nonneg _))
        have hsq1 : x 1 ^ 2 ≤ 0 := by nlinarith [sq_nonneg (x 0), sq_nonneg (x 2), sq_nonneg (x 3), sq_nonneg (x 4), sq_nonneg (x 5)]
        have e1 : x 1 = 0 := sq_eq_zero_iff.mp (le_antisymm hsq1 (sq_nonneg _))
        have hsq2 : x 2 ^ 2 ≤ 0 := by nlinarith [sq_nonneg (x 0), sq_nonneg (x 1), sq_nonneg (x 3), sq_nonneg (x 4), sq_nonneg (x 5)]
        have e2 : x 2 = 0 := sq_eq_zero_iff.mp (le_antisymm hsq2 (sq_nonneg _))
        have hsq3 : x 3 ^ 2 ≤ 0 := by nlinarith [sq_nonneg (x 0), sq_nonneg (x 1), sq_nonneg (x 2), sq_nonneg (x 4), sq_nonneg (x 5)]
        have e3 : x 3 = 0 := sq_eq_zero_iff.mp (le_antisymm hsq3 (sq_nonneg _))
        have hsq4 : x 4 ^ 2 ≤ 0 := by nlinarith [sq_nonneg (x 0), sq_nonneg (x 1), sq_nonneg (x 2), sq_nonneg (x 3), sq_nonneg (x 5)]
        have e4 : x 4 = 0 := sq_eq_zero_iff.mp (le_antisymm hsq4 (sq_nonneg _))
        have hsq5 : x 5 ^ 2 ≤ 0 := by nlinarith [sq_nonneg (x 0), sq_nonneg (x 1), sq_nonneg (x 2), sq_nonneg (x 3), sq_nonneg (x 4)]
        have e5 : x 5 = 0 := sq_eq_zero_iff.mp (le_antisymm hsq5 (sq_nonneg _))
        funext j
        fin_cases j
        · exact e0
        · exact e1
        · exact e2
        · exact e3
        · exact e4
        · exact e5
    rw [hquad]
    nlinarith [mul_pos hG hpos, mul_nonneg hl.le (sq_nonneg (x 0 + x 1 + x 2)),
      mul_nonneg hG.le (sq_nonneg (x 0)), mul_nonneg hG.le (sq_nonneg (x 1)),
      mul_nonneg hG.le (sq_nonneg (x 2)), mul_nonneg hG.le (sq_nonneg (x 3)),
      mul_nonneg hG.le (sq_nonneg (x 4)), mul_nonneg hG.le (sq_nonneg (x 5))]

/-- Claim C8 witness: the theorem instantiated at E = 1, ν = 1/4, with the
positive-definiteness applied to the all-ones direction. -/
theorem claim_C8_witness :
    (0 : ℚ) < 1 ∧ (0 : ℚ) < 1 / 4 ∧ (1 / 4 : ℚ) < 1 / 2 ∧
    0 < Matrix.dotProduct (fun _ : Fin 6 => (1 : ℚ))
      ((Isotropic.mk 1 (1 / 4)).C.mulVec fun _ => 1) := by
  refine ⟨by norm_num, by norm_num, by norm_num, ?_⟩
  have h := claim_C8_isotropic_spd ⟨1, 1 / 4⟩ (by norm_num) (by norm_num)
    (by norm_num)
  refine h.2.2.2.2.2.2.2 (fun _ => 1) ?_
  intro hc
  have h1 := congrFun hc 0
  simp at h1

/-- Membership in the row-major pair list. -/
lemma mem_listProd {α β : Type} (xs : List α) (ys : List β) (p : α × β) :
    p ∈ listProd xs ys ↔ p.1 ∈ xs ∧ p.2 ∈ ys := by
  constructor
  · intro h
    simp only [listProd, List.mem_flatMap, List.mem_map] at h
    obtain ⟨a, ha, b, hb, he⟩ := h
    cases he
    exact ⟨ha, hb⟩
  · rintro ⟨h1, h2⟩
    simp only [listProd, List.mem_flatMap, List.mem_map]
    exact ⟨p.1, h1, p.2, h2, rfl⟩

/-- The row-major pair list of two duplicate-free lists is duplicate-free. -/
lemma nodup_listProd {α β : Type} {xs : List α} {ys : List β}
    (hx : xs.Nodup) (hy : ys.Nodup) : (listProd xs ys).Nodup := by
  induction xs with
  | nil => simp [listProd]
  | cons a xs ih =>
      have hsplit : listProd (a :: xs) ys =
          (ys.map fun b => (a, b)) ++ listProd xs ys := rfl
      rw [hsplit]
      refine List.Nodup.append ?_ (ih (List.nodup_cons.mp hx).2) ?_
      · exact hy.map fun b1 b2 h => congrArg Prod.snd h
      · intro p hp1 hp2
        obtain ⟨b, _, rfl⟩ := List.mem_map.mp hp1
        exact (List.nodup_cons.mp hx).1 ((mem_listProd _ _ _).mp hp2).1

/-- Every global DOF occurs in the ravel-order DOF list. -/
lemma mem_allDofs (s : Solid) (d : DofI s) : d ∈ allDofs s :=
  (mem_listProd _ _ _).mpr ⟨List.mem_finRange _, List.mem_finRange _⟩

/-- The constrained-DOF list is duplicate-free. -/
lemma conList_nodup (s : Solid) : (conList s).Nodup :=
  (nodup_listProd (List.nodup_finRange _) (List.nodup_finRange _)).filter _

/-- Membership in the constrained-DOF list is the constraint flag. -/
lemma mem_conList (s : Solid) (d : DofI s) : d ∈ conList s ↔ conD s d := by
  simp [conList, List.mem_filter, mem_allDofs]

/-- Coalescing distributes over concatenation of scattered triples. -/
lemma cooSum_append (s : Solid) (l1 l2 : List ((DofI s × DofI s) × ℚ))
    (p : DofI s × DofI s) :
    cooSum s (l1 ++ l2) p = cooSum s l1 p + cooSum s l2 p := by
  simp [cooSum, List.filter_append]

/-- Coalescing the unit diagonal entries of a duplicate-free DOF list yields
the identity pattern on that list. -/
lemma cooSum_diag (s : Solid) :
    ∀ (l : List (DofI s)), l.Nodup → ∀ r c : DofI s,
      cooSum s (l.map fun d => ((d, d), (1 : ℚ))) (r, c) =
        if r = c ∧ r ∈ l then 1 else 0 := by
  intro l
  induction l with
  | nil =>
      intro _ r c
      simp [cooSum]
  | cons d l ih =>
      intro hnd r c
      have htail := ih (List.nodup_cons.mp hnd).2 r c
      have hnotmem : d ∉ l := (List.nodup_cons.mp hnd).1
      by_cases hd : ((d, d) : DofI s × DofI s) = (r, c)
      · rw [Prod.mk.injEq] at hd
        obtain ⟨rfl, rfl⟩ := hd
        simp only [cooSum, List.map_cons, List.filter_cons] at htail ⊢
        simp only [decide_eq_true_eq] at htail ⊢
        simp [hnotmem] at htail
        simp [htail]
      · simp only [cooSum, List.map_cons, List.filter_cons] at htail ⊢
        simp only [decide_eq_true_eq] at htail ⊢
        rw [if_neg (by simpa using hd)]
        rw [htail]
        have hiff : (r = c ∧ r ∈ l) ↔ (r = c ∧ r ∈ d :: l) := by
          constructor
          · rintro ⟨rfl, hm⟩
            exact ⟨rfl, List.mem_cons_of_mem _ hm⟩
          · rintro ⟨rfl, hm⟩
            rcases List.mem_cons.mp hm with rfl | hm2
            · exact absurd rfl hd
            · exact ⟨rfl, hm2⟩
        rw [if_congr hiff rfl rfl]

/-- Claim C4: the assembled global stiffness matrix is square of size
n_dofs × n_dofs (the DOF index type has exactly `n_dofs` elements); every
scattered element-stiffness triple whose row or column is a constrained DOF
is dropped and that row/column is forced to identity (diagonal 1,
off-diagonal 0); on free index pairs the entry is the coalesced sum of all
scattered triples carrying that pair (duplicates summed). -/
theorem claim_C4_assembly (s : Solid)
    (k : Fin s.nElem → Matrix (Fin s.arity × Fin 3) (Fin s.arity × Fin 3) ℚ)
    (r c : DofI s) :
    Fintype.card (DofI s) = s.n_dofs ∧
    s.assemble_stiffness k r c =
      (if conD s r ∨ conD s c then (if r = c then 1 else 0)
       else cooSum s (elemTriples s k) (r, c)) := by
  constructor
  · simp [Solid.n_dofs, Fintype.card_prod, Fintype.card_fin, Nat.mul_comm]
  · unfold Solid.assemble_stiffness
    rw [cooSum_append]
    have hdiag := cooSum_diag s (conList s) (conList_nodup s) r c
    by_cases hcon : conD s r ∨ conD s c
    · rw [if_pos hcon]
      have hmaskzero : cooSum s ((elemTriples s k).filter fun t =>
          !(conD s t.1.1 || conD s t.1.2)) (r, c) = 0 := by
        unfold cooSum
        have hnil : ((elemTriples s k).filter fun t =>
            !(conD s t.1.1 || conD s t.1.2)).filter
              (fun t => decide (t.1 = (r, c))) = [] := by
          rw [List.filter_eq_nil_iff]
          intro t ht hteq
          obtain ⟨hmem, hmask⟩ := List.mem_filter.mp ht
          have hteq2 : t.1 = (r, c) := by simpa using hteq
          rw [hteq2] at hmask
          simp only [Bool.not_eq_true', Bool.or_eq_false_iff] at hmask
          rcases hcon with hr | hc
          · rw [hmask.1] at hr
            cases hr
          · rw [hmask.2] at hc
            cases hc
        rw [hnil]
        simp
      rw [hmaskzero, hdiag, zero_add]
      by_cases hrc : r = c
      · subst hrc
        have hconr : conD s r := by
          rcases hcon with h | h
          · exact h
          · exact h
        rw [if_pos ⟨rfl, (mem_conList s r).mpr hconr⟩, if_pos rfl]
      · rw [if_neg (by rintro ⟨h, _⟩; exact hrc h), if_neg hrc]
    · rw [if_neg hcon]
      have hdiagzero : cooSum s ((conList s).map fun d => ((d, d), (1 : ℚ)))
          (r, c) = 0 := by
        rw [hdiag, if_neg]
        rintro ⟨rfl, hmem⟩
        exact hcon (Or.inl ((mem_conList s r).mp hmem))
      rw [hdiagzero, add_zero]
      unfold cooSum
      congr 1
      congr 1
      rw [List.filter_filter]
      apply List.filter_congr
      intro t ht
      by_cases hteq : t.1 = (r, c)
      · have hr : ¬ conD s r = true := fun h => hcon (Or.inl h)
        have hc2 : ¬ conD s c = true := fun h => hcon (Or.inr h)
        simp only [Bool.not_eq_true'] at hr hc2
        simp [hteq, hr, hc2]
      · simp [hteq]
